import Mathlib

/-!
Verification of the `thunk` slot-pool / trampoline library
(`thunk_lambda.hpp`): a fixed-capacity table `data : LambdaType*[N]`
maps slot indices to closure addresses, `acquire` linearly scans for the
first empty slot, `release` clears a slot, `get` selects the trampoline
`invoke<I>` whose compile-time index `I` equals the handle's stored
index, and `invoke<I>` forwards its arguments to the closure currently
stored at slot `I`.

Embedding choices: a closure address (`LambdaType*`) is a `Nat`; the
slot table is a `List (Option Nat)` of length `N` (`none` = `nullptr`);
what each closure computes is given by an environment `env : Nat → α → β`
(the heap of closure objects); a trampoline's function-pointer value is
identified with its compile-time index `I`, since the `N` instantiated
trampolines are distinct functions with distinct addresses; operations
that abnormally terminate the process (pool exhaustion, trampoline
invoked on an empty slot) are modelled as returning `none`.
-/

namespace ThunkLambda

/-- The slot table `inline static LambdaType *data[N]`: each entry is
either `none` (`nullptr`) or the address of a live closure. -/
abbrev SlotTable := List (Option Nat)

/-- Scan of `acquire` (thunk_lambda.hpp lines 91-93): walk the table from
index 0; at the first `none` entry store the closure address `p` and
return the index together with the updated table.  `none` models the
`assert`/`std::abort` path (pool exhausted, lines 94-95). -/
def acquireAux (p : Nat) : SlotTable → Option (Nat × SlotTable)
  | [] => none
  | none :: rest => some (0, some p :: rest)
  | some q :: rest =>
      (acquireAux p rest).map (fun ir => (ir.1 + 1, some q :: ir.2))

/-- `static size_t acquire(LambdaType &arg) noexcept` (lines 88-101):
first-empty-slot linear scan under the pool mutex; `none` is the
abnormal-termination outcome when every slot is occupied. -/
def acquire (data : SlotTable) (p : Nat) : Option (Nat × SlotTable) :=
  acquireAux p data

/-- `static void release(size_t const i) noexcept` (lines 102-111):
`data[i] = nullptr` under the pool mutex. -/
def release (i : Nat) (data : SlotTable) : SlotTable :=
  data.set i none

/-- The fold inside `get()` (lines 78-84): `ret` starts uninitialized
(`none`); the fold `((I == index ? ret = &invoke<I> : ret), ...)` runs
over the index sequence `0, …, N-1`, assigning the address of the
trampoline `invoke<I>` whenever `I == index`.  A trampoline address is
identified with its compile-time index. -/
def getFold (N index : Nat) : Option Nat :=
  (List.range N).foldl (fun ret I => if I = index then some I else ret) none

/-- The trampoline `invoke<I>` (lines 116-120): asserts `data[I]` is
non-null and forwards the call to the stored closure, returning its
result unmodified.  `env` gives the behaviour of the closure object at
each address; `none` models the failed-assertion path (slot empty). -/
def invoke {α β : Type} (env : Nat → α → β) (data : SlotTable)
    (I : Nat) (a : α) : Option β :=
  match data[I]? with
  | some (some p) => some (env p a)
  | _ => none

/-- The call-operator type of a Closure Shape, as far as the `noexcept`
analysis in `detail` is concerned: the member-function-pointer type
carries the boolean `b_noexcept`. -/
structure MemFnType where
  b_noexcept : Bool
deriving DecidableEq

/-- `detail::IsNoExcept` (lines 52-62): reads the deduced `b_noexcept`
of the closure's call operator. -/
def IsNoExcept (t : MemFnType) : Bool :=
  t.b_noexcept

/-- The exception specification `noexcept(detail::IsNoExcept(...))`
declared on the trampoline `invoke<I>` (line 116). -/
def invokeNoexceptSpec (t : MemFnType) : Bool :=
  IsNoExcept t

/-- An Adapter Handle: the immutable slot index stored at construction
(`size_t const index`) and the wrapped closure's address. -/
structure Handle where
  idx : Nat
  ptr : Nat
deriving DecidableEq

/-- Pool-level state: the slot table plus the currently live handles
(most recently constructed first). -/
structure SysState where
  data : SlotTable
  live : List Handle
deriving DecidableEq

/-- A lifecycle event: constructing a `thunk` around the closure at
address `p`, or destroying the `k`-th currently live handle. -/
inductive Event where
  | wrap (p : Nat)
  | drop (k : Nat)

/-- One lifecycle step.  `wrap p` runs the constructor (line 74-76):
`acquire` claims a slot, then `data[index] = &arg` stores the address
again; `none` is abnormal termination on exhaustion.  `drop k` runs the
destructor (line 77) of the `k`-th live handle: `release(index)`. -/
def stepEv (st : SysState) : Event → Option SysState
  | Event.wrap p =>
      match acquire st.data p with
      | some (i, d) => some ⟨d.set i (some p), ⟨i, p⟩ :: st.live⟩
      | none => none
  | Event.drop k =>
      match st.live[k]? with
      | some h => some ⟨release h.idx st.data, st.live.eraseIdx k⟩
      | none => none

/-- Run a sequence of lifecycle events; `none` as soon as a step
terminates the process abnormally. -/
def exec (evs : List Event) (st : SysState) : Option SysState :=
  match evs with
  | [] => some st
  | e :: rest =>
      match stepEv st e with
      | some st1 => exec rest st1
      | none => none

/-- Process start: `inline static LambdaType *data[N] = {}` — all `N`
slots `nullptr`, no live handles. -/
def initState (N : Nat) : SysState :=
  ⟨List.replicate N none, []⟩

/-- The three closures of the spec's concrete scenario, by address:
A at 0 captures 3 and returns `captured + arg`, B at 1 captures 10 and
returns `captured - arg`, C at 2 captures 100 and returns
`captured + arg`. -/
def envC2 : Nat → Int → Int
  | 0 => fun x => 3 + x
  | 1 => fun x => 10 - x
  | _ => fun x => 100 + x

/-- The pool invariant: live handles hold pairwise distinct slot
indices, and every live handle's slot stores exactly its own closure's
address. -/
def Inv (st : SysState) : Prop :=
  st.live.Pairwise (fun a b => a.idx ≠ b.idx) ∧
  ∀ h ∈ st.live, st.data[h.idx]? = some (some h.ptr)

/-- Soundness of the acquisition scan: whenever the scan returns an
index, that slot was empty, every slot before it was occupied, and the
updated table stores the closure address at the returned index. -/
theorem acquireAux_sound (p : Nat) (data : SlotTable) :
    ∀ (i : Nat) (d : SlotTable),
      acquireAux p data = some (i, d) →
      data[i]? = some none ∧
      (∀ j, j < i → ∃ q, data[j]? = some (some q)) ∧
      d = data.set i (some p) := by
  induction data with
  | nil => intro i d h; simp [acquireAux] at h
  | cons x rest ih =>
    intro i d h
    cases x with
    | none =>
      simp only [acquireAux, Option.some_inj] at h
      injection h with h1 h2
      subst h1
      subst h2
      refine ⟨by simp, ?_, by simp⟩
      intro j hj
      exact absurd hj (Nat.not_lt_zero j)
    | some q =>
      simp only [acquireAux] at h
      cases hrec : acquireAux p rest with
      | none => rw [hrec] at h; simp at h
      | some ir =>
        obtain ⟨i1, d1⟩ := ir
        rw [hrec] at h
        simp only [Option.map_some', Option.some_inj] at h
        injection h with h1 h2
        subst h1
        subst h2
        obtain ⟨hres1, hres2, hres3⟩ := ih i1 d1 hrec
        refine ⟨by simpa using hres1, ?_, by simp [hres3]⟩
        intro j hj
        cases j with
        | zero => exact ⟨q, by simp⟩
        | succ j1 =>
          obtain ⟨r, hr2⟩ := hres2 j1 (by omega)
          exact ⟨r, by simpa using hr2⟩

/-- Completeness of the acquisition scan: if some slot is empty, the
scan succeeds. -/
theorem acquireAux_isSome (p : Nat) (data : SlotTable) :
    (∃ j : Nat, data[j]? = some none) → (acquireAux p data).isSome := by
  induction data with
  | nil =>
    rintro ⟨j, hj⟩
    simp at hj
  | cons x rest ih =>
    rintro ⟨j, hj⟩
    cases x with
    | none => simp [acquireAux]
    | some q =>
      cases j with
      | zero => simp at hj
      | succ j1 =>
        have h1 : (acquireAux p rest).isSome := ih ⟨j1, by simpa using hj⟩
        cases hr : acquireAux p rest with
        | none => rw [hr] at h1; simp at h1
        | some ir => simp [acquireAux, hr]

/-- Determinacy of the acquisition scan: if slot `i` is empty and every
slot before it is occupied, the scan returns exactly `i` and stores the
closure address there. -/
theorem acquireAux_eq (p : Nat) (data : SlotTable) :
    ∀ i : Nat, data[i]? = some none →
      (∀ j, j < i → ∃ q, data[j]? = some (some q)) →
      acquireAux p data = some (i, data.set i (some p)) := by
  induction data with
  | nil => intro i hi _; simp at hi
  | cons x rest ih =>
    intro i hi hj
    cases i with
    | zero =>
      simp only [List.getElem?_cons_zero, Option.some_inj] at hi
      subst hi
      rfl
    | succ i1 =>
      obtain ⟨q, hq⟩ := hj 0 (Nat.succ_pos _)
      simp only [List.getElem?_cons_zero, Option.some_inj] at hq
      subst hq
      have h1 : rest[i1]? = some none := by simpa using hi
      have h2 : ∀ j, j < i1 → ∃ r, rest[j]? = some (some r) := by
        intro j hjlt
        have := hj (j + 1) (by omega)
        simpa using this
      simp [acquireAux, ih i1 h1 h2]

/-- Exhaustion: if every slot of the table is occupied, the scan falls
through and reaches the abnormal-termination path. -/
theorem acquireAux_none (p : Nat) (data : SlotTable) :
    (∀ j, j < data.length → ∃ q, data[j]? = some (some q)) →
    acquireAux p data = none := by
  induction data with
  | nil => intro _; rfl
  | cons x rest ih =>
    intro h
    obtain ⟨q, hq⟩ := h 0 (by simp)
    simp only [List.getElem?_cons_zero, Option.some_inj] at hq
    subst hq
    have h1 : acquireAux p rest = none := by
      refine ih ?_
      intro j hj
      have := h (j + 1) (by simp; omega)
      simpa using this
    simp [acquireAux, h1]

/-- A successful scan result's index lies inside the table. -/
theorem acquireAux_lt_length (p : Nat) (data : SlotTable) (i : Nat)
    (d : SlotTable) (h : acquireAux p data = some (i, d)) :
    i < data.length := by
  obtain ⟨h1, -, -⟩ := acquireAux_sound p data i d h
  exact (List.getElem?_eq_some.mp h1).1

/-- C3: on any pool state with at least one empty slot, `acquire`
returns the smallest index `i` such that slots `0..i-1` are all occupied
and slot `i` is empty, and stores the closure reference at that entry. -/
theorem thunk_acquire_first_empty (N : Nat) (data : SlotTable) (p : Nat)
    (hlen : data.length = N)
    (hfree : ∃ j, j < N ∧ data[j]? = some none) :
    ∃ i d, acquire data p = some (i, d) ∧
      data[i]? = some none ∧
      (∀ j, j < i → ∃ q, data[j]? = some (some q)) ∧
      d = data.set i (some p) := by
  obtain ⟨j, -, hj⟩ := hfree
  have h1 : (acquireAux p data).isSome := acquireAux_isSome p data ⟨j, hj⟩
  cases hr : acquireAux p data with
  | none => rw [hr] at h1; simp at h1
  | some ir =>
    obtain ⟨i, d⟩ := ir
    obtain ⟨h2, h3, h4⟩ := acquireAux_sound p data i d hr
    exact ⟨i, d, hr, h2, h3, h4⟩

/-- C3 witness: table `[occupied 5, empty, empty]`, wrapping address 7
claims slot 1. -/
theorem thunk_acquire_first_empty_witness :
    (([some 5, none, none] : SlotTable).length = 3 ∧
      ∃ j, j < 3 ∧ ([some 5, none, none] : SlotTable)[j]? = some none) ∧
    ∃ i d, acquire [some 5, none, none] 7 = some (i, d) ∧
      ([some 5, none, none] : SlotTable)[i]? = some none ∧
      (∀ j, j < i → ∃ q, ([some 5, none, none] : SlotTable)[j]?
        = some (some q)) ∧
      d = ([some 5, none, none] : SlotTable).set i (some 7) :=
  ⟨⟨rfl, 1, by omega, by simp⟩,
    thunk_acquire_first_empty 3 [some 5, none, none] 7 rfl
      ⟨1, by omega, by simp⟩⟩

/-- C4: when every one of the `N` slots is occupied, `acquire` reaches
the abnormal-termination path (`assert` then `std::abort`) and returns
no index and no recoverable error value. -/
theorem thunk_acquire_exhausted_aborts (N : Nat) (data : SlotTable)
    (p : Nat) (hlen : data.length = N)
    (hfull : ∀ j, j < N → ∃ q, data[j]? = some (some q)) :
    acquire data p = none := by
  refine acquireAux_none p data ?_
  intro j hj
  exact hfull j (hlen ▸ hj)

/-- C4 witness: the full two-slot table rejects a further acquisition. -/
theorem thunk_acquire_exhausted_aborts_witness :
    (([some 4, some 9] : SlotTable).length = 2 ∧
      ∀ j, j < 2 → ∃ q, ([some 4, some 9] : SlotTable)[j]?
        = some (some q)) ∧
    acquire [some 4, some 9] 7 = none := by
  have hfull : ∀ j, j < 2 →
      ∃ q, ([some 4, some 9] : SlotTable)[j]? = some (some q) := by
    intro j hj
    match j, hj with
    | 0, _ => exact ⟨4, by simp⟩
    | 1, _ => exact ⟨9, by simp⟩
  exact ⟨⟨rfl, hfull⟩,
    thunk_acquire_exhausted_aborts 2 [some 4, some 9] 7 rfl hfull⟩

/-- Evaluating the selection fold of `get()` with an arbitrary
accumulator: once the scan has passed the stored index `i`, the result
is the trampoline for `i`; otherwise the accumulator is untouched. -/
theorem getFold_loop (i : Nat) :
    ∀ (N : Nat) (a : Option Nat),
      (List.range N).foldl (fun ret I => if I = i then some I else ret) a
        = if i < N then some i else a := by
  intro N
  induction N with
  | zero => intro a; simp
  | succ n ih =>
    intro a
    rw [List.range_succ, List.foldl_append]
    simp only [List.foldl_cons, List.foldl_nil]
    rw [ih]
    by_cases h1 : n = i
    · subst h1
      rw [if_pos rfl, if_pos (by omega)]
    · by_cases h2 : i < n
      · rw [if_neg h1, if_pos h2, if_pos (by omega)]
      · rw [if_neg h1, if_neg h2, if_neg (by omega)]

/-- The selection fold picks exactly the trampoline bound to the stored
index, whenever that index is below the capacity. -/
theorem getFold_eq_of_lt (N i : Nat) (h : i < N) : getFold N i = some i := by
  unfold getFold
  rw [getFold_loop, if_pos h]

/-- C1: wrapping a closure yields a handle whose `get()` pointer is the
trampoline of the acquired slot, and invoking that trampoline with any
argument calls the closure stored at the slot and returns its result
unmodified — the same result as calling the closure directly. -/
theorem thunk_pointer_calls_closure {α β : Type} (N : Nat)
    (env : Nat → α → β) (data : SlotTable) (p i : Nat) (d : SlotTable)
    (hlen : data.length = N)
    (hacq : acquire data p = some (i, d)) :
    getFold N i = some i ∧
    ∀ a : α, invoke env (d.set i (some p)) i a = some (env p a) := by
  obtain ⟨h1, -, h3⟩ := acquireAux_sound p data i d hacq
  have hilt : i < data.length := (List.getElem?_eq_some.mp h1).1
  constructor
  · exact getFold_eq_of_lt N i (hlen ▸ hilt)
  · intro a
    have hset : (d.set i (some p))[i]? = some (some p) := by
      rw [h3, List.set_set]
      exact List.getElem?_set_self hilt
    unfold invoke
    rw [hset]

/-- C1 witness: wrapping closure A (address 0, `3 + arg`) in the empty
two-slot pool and invoking the selected trampoline. -/
theorem thunk_pointer_calls_closure_witness :
    (([none, none] : SlotTable).length = 2 ∧
      acquire [none, none] 0 = some (0, [some 0, none])) ∧
    (getFold 2 0 = some 0 ∧
      ∀ a : Int,
        invoke envC2 (([some 0, none] : SlotTable).set 0 (some 0)) 0 a
          = some (envC2 0 a)) :=
  ⟨⟨rfl, rfl⟩,
    thunk_pointer_calls_closure 2 envC2 [none, none] 0 0 [some 0, none]
      rfl rfl⟩

/-- C7: `get()` is a pure function of capacity and stored index alone,
so repeated calls return the same pointer value; that value is the
address of the one trampoline whose statically bound index equals the
handle's stored slot index. -/
theorem thunk_get_stable_pointer (N i : Nat) (h : i < N) :
    getFold N i = some i :=
  getFold_eq_of_lt N i h

/-- C7 witness: at the default capacity 32, a handle on slot 4 always
gets the trampoline bound to index 4. -/
theorem thunk_get_stable_pointer_witness :
    4 < 32 ∧ getFold 32 4 = some 4 :=
  ⟨by omega, thunk_get_stable_pointer 32 4 (by omega)⟩

/-- C8: `release i` clears entry `i` back to empty and leaves every
entry other than `i` unchanged. -/
theorem thunk_release_frame (data : SlotTable) (i : Nat)
    (h : i < data.length) :
    (release i data)[i]? = some none ∧
    ∀ j : Nat, j ≠ i → (release i data)[j]? = data[j]? := by
  constructor
  · exact List.getElem?_set_self h
  · intro j hj
    exact List.getElem?_set_ne (fun he => hj he.symm)

/-- C8 witness: releasing slot 1 of a three-slot table. -/
theorem thunk_release_frame_witness :
    1 < ([some 1, some 2, none] : SlotTable).length ∧
    (release 1 [some 1, some 2, none])[1]? = some none ∧
    ∀ j : Nat, j ≠ 1 →
      (release 1 [some 1, some 2, none])[j]?
        = ([some 1, some 2, none] : SlotTable)[j]? :=
  ⟨by decide, thunk_release_frame [some 1, some 2, none] 1 (by decide)⟩

/-- C9: the trampoline's declared exception specification is exactly
the closure shape's no-throw flag, and a failure signal raised by a
(throwing) closure during a call through the trampoline reaches the
trampoline's caller unmodified — the trampoline adds no handling. -/
theorem thunk_noexcept_match_and_propagation {α β E : Type}
    (t : MemFnType) (env : Nat → α → Except E β) (data : SlotTable)
    (I p : Nat) (a : α) (e : E)
    (hslot : data[I]? = some (some p))
    (hthrow : env p a = Except.error e) :
    invokeNoexceptSpec t = t.b_noexcept ∧
    invoke env data I a = some (Except.error e) := by
  refine ⟨rfl, ?_⟩
  unfold invoke
  rw [hslot]
  show some (env p a) = some (Except.error e)
  rw [hthrow]

/-- C9 witness: a closure that raises error 3 has that error returned
unmodified by the trampoline, and a not-no-throw shape yields a
not-no-throw trampoline. -/
theorem thunk_noexcept_match_and_propagation_witness :
    (([some 0] : SlotTable)[0]? = some (some 0) ∧
      (fun (_ : Nat) (_ : Unit) => (Except.error 3 : Except Nat Nat)) 0 ()
        = Except.error 3) ∧
    (invokeNoexceptSpec ⟨false⟩ = (⟨false⟩ : MemFnType).b_noexcept ∧
      invoke (fun (_ : Nat) (_ : Unit) => (Except.error 3 : Except Nat Nat))
          [some 0] 0 () = some (Except.error 3)) :=
  ⟨⟨by simp, rfl⟩,
    thunk_noexcept_match_and_propagation ⟨false⟩
      (fun _ _ => Except.error 3) [some 0] 0 0 () 3 (by simp) rfl⟩

/-- C10: a successful construction stores an index strictly below `N`;
the selection fold of `get()` assigns the returned pointer exactly once
(the stored index occurs exactly once in the index sequence `0..N-1`)
and so never leaves it unassigned; the constructor's second store of the
closure address is idempotent over the store already done by `acquire`;
and the slot at the handle's index holds the closure's address, so the
trampoline's occupancy assertion is satisfied while the handle is
live. -/
theorem thunk_ctor_index_valid (N : Nat) (data : SlotTable) (p i : Nat)
    (d : SlotTable) (hlen : data.length = N)
    (hacq : acquire data p = some (i, d)) :
    i < N ∧
    (List.range N).count i = 1 ∧
    getFold N i = some i ∧
    d.set i (some p) = d ∧
    d[i]? = some (some p) := by
  obtain ⟨h1, -, h3⟩ := acquireAux_sound p data i d hacq
  have hilt : i < data.length := (List.getElem?_eq_some.mp h1).1
  have hiN : i < N := hlen ▸ hilt
  refine ⟨hiN, ?_, getFold_eq_of_lt N i hiN, ?_, ?_⟩
  · exact List.count_eq_one_of_mem (List.nodup_range N)
      (List.mem_range.mpr hiN)
  · rw [h3, List.set_set]
  · rw [h3]
    exact List.getElem?_set_self hilt

/-- C10 witness: wrapping address 8 in the table `[occupied 3, empty]`
claims slot 1 with all the construction-safety consequences. -/
theorem thunk_ctor_index_valid_witness :
    (([some 3, none] : SlotTable).length = 2 ∧
      acquire [some 3, none] 8 = some (1, [some 3, some 8])) ∧
    (1 < 2 ∧
      (List.range 2).count 1 = 1 ∧
      getFold 2 1 = some 1 ∧
      ([some 3, some 8] : SlotTable).set 1 (some 8) = [some 3, some 8] ∧
      ([some 3, some 8] : SlotTable)[1]? = some (some 8)) :=
  ⟨⟨rfl, rfl⟩,
    thunk_ctor_index_valid 2 [some 3, none] 8 1 [some 3, some 8] rfl rfl⟩

/-- C2: with capacity N=2, wrapping A acquires slot 0 and wrapping B
acquires slot 1 of the same pool; A's trampoline at 4 yields 7 and B's
at 4 yields 6; after destroying A's handle, wrapping C reuses slot 0;
C's trampoline at 1 yields 101 and B's still yields 6 at 4. -/
theorem thunk_scenario_N2 :
    exec [Event.wrap 0, Event.wrap 1] (initState 2)
      = some ⟨[some 0, some 1], [⟨1, 1⟩, ⟨0, 0⟩]⟩ ∧
    getFold 2 0 = some 0 ∧
    getFold 2 1 = some 1 ∧
    invoke envC2 [some 0, some 1] 0 4 = some 7 ∧
    invoke envC2 [some 0, some 1] 1 4 = some 6 ∧
    exec [Event.drop 1, Event.wrap 2]
        ⟨[some 0, some 1], [⟨1, 1⟩, ⟨0, 0⟩]⟩
      = some ⟨[some 2, some 1], [⟨0, 2⟩, ⟨1, 1⟩]⟩ ∧
    invoke envC2 [some 2, some 1] 0 1 = some 101 ∧
    invoke envC2 [some 2, some 1] 1 4 = some 6 := by
  refine ⟨rfl, rfl, rfl, rfl, rfl, rfl, rfl, rfl⟩

/-- A handle at position `k` of a pairwise-index-distinct handle list
has a slot index different from every handle that remains after erasing
position `k`. -/
theorem pairwise_ne_eraseIdx (l : List Handle) :
    ∀ (k : Nat) (h : Handle),
      l.Pairwise (fun a b => a.idx ≠ b.idx) →
      l[k]? = some h →
      ∀ h2 ∈ l.eraseIdx k, h2.idx ≠ h.idx := by
  induction l with
  | nil => intro k h _ hk; simp at hk
  | cons x tl ih =>
    intro k h hp hk h2 hmem
    obtain ⟨hhead, htail⟩ := List.pairwise_cons.mp hp
    cases k with
    | zero =>
      simp only [List.getElem?_cons_zero, Option.some_inj] at hk
      subst hk
      rw [List.eraseIdx_cons_zero] at hmem
      exact (hhead h2 hmem).symm
    | succ k1 =>
      simp only [List.getElem?_cons_succ] at hk
      rw [List.eraseIdx_cons_succ] at hmem
      cases List.mem_cons.mp hmem with
      | inl hx =>
        subst hx
        exact hhead h (List.getElem?_mem hk)
      | inr htl2 =>
        exact ih k1 h htail hk h2 htl2

/-- The pool invariant holds at process start. -/
theorem Inv_initState (N : Nat) : Inv (initState N) := by
  constructor
  · exact List.Pairwise.nil
  · intro h hmem
    simp [initState] at hmem

/-- One lifecycle step preserves the pool invariant. -/
theorem Inv_stepEv (st st2 : SysState) (e : Event) (hInv : Inv st)
    (hstep : stepEv st e = some st2) : Inv st2 := by
  obtain ⟨hpw, hslots⟩ := hInv
  cases e with
  | wrap p =>
    simp only [stepEv] at hstep
    cases hacq : acquire st.data p with
    | none => rw [hacq] at hstep; simp at hstep
    | some ir =>
      obtain ⟨i, d⟩ := ir
      rw [hacq] at hstep
      simp only [Option.some_inj] at hstep
      subst hstep
      obtain ⟨h1, -, h3⟩ := acquireAux_sound p st.data i d hacq
      have hilt : i < st.data.length := (List.getElem?_eq_some.mp h1).1
      have hne : ∀ hh ∈ st.live, hh.idx ≠ i := by
        intro hh hmem heq
        have hcontr := hslots hh hmem
        rw [heq, h1] at hcontr
        simp at hcontr
      have hdata : d.set i (some p) = st.data.set i (some p) := by
        rw [h3, List.set_set]
      constructor
      · refine List.pairwise_cons.mpr ⟨?_, hpw⟩
        intro hh hmem
        exact fun he => hne hh hmem he.symm
      · intro hh hmem
        cases List.mem_cons.mp hmem with
        | inl hx =>
          subst hx
          show (d.set i (some p))[i]? = some (some p)
          rw [hdata]
          exact List.getElem?_set_self hilt
        | inr hold =>
          show (d.set i (some p))[hh.idx]? = some (some hh.ptr)
          rw [hdata, List.getElem?_set_ne (fun he => hne hh hold he.symm)]
          exact hslots hh hold
  | drop k =>
    simp only [stepEv] at hstep
    cases hk : st.live[k]? with
    | none => rw [hk] at hstep; simp at hstep
    | some h =>
      rw [hk] at hstep
      simp only [Option.some_inj] at hstep
      subst hstep
      have hne2 := pairwise_ne_eraseIdx st.live k h hpw hk
      constructor
      · exact List.Pairwise.sublist (List.eraseIdx_sublist st.live k) hpw
      · intro hh hmem
        have hmem2 : hh ∈ st.live :=
          (List.eraseIdx_sublist st.live k).subset hmem
        show (release h.idx st.data)[hh.idx]? = some (some hh.ptr)
        unfold release
        rw [List.getElem?_set_ne (hne2 hh hmem).symm]
        exact hslots hh hmem2

/-- Every abnormal-termination-free run of lifecycle events preserves
the pool invariant. -/
theorem Inv_exec (evs : List Event) :
    ∀ (st st2 : SysState), Inv st → exec evs st = some st2 → Inv st2 := by
  induction evs with
  | nil =>
    intro st st2 hInv h
    simp only [exec, Option.some_inj] at h
    subst h
    exact hInv
  | cons e rest ih =>
    intro st st2 hInv h
    simp only [exec] at h
    cases hs : stepEv st e with
    | none => rw [hs] at h; simp at h
    | some st1 =>
      rw [hs] at h
      exact ih st1 st2 (Inv_stepEv st st1 e hInv hs) h

/-- C5: along any sequence of handle constructions and destructions
that never exceeds the capacity (no step aborts), simultaneously live
handles hold pairwise distinct slot indices, and every occupied slot is
owned by at most one live handle: two live handles with the same index
are the same handle. -/
theorem thunk_live_handles_distinct (N : Nat) (evs : List Event)
    (st : SysState) (hexec : exec evs (initState N) = some st) :
    st.live.Pairwise (fun a b => a.idx ≠ b.idx) ∧
    ∀ h1 ∈ st.live, ∀ h2 ∈ st.live, h1.idx = h2.idx → h1 = h2 := by
  obtain ⟨hpw, -⟩ := Inv_exec evs (initState N) st (Inv_initState N) hexec
  refine ⟨hpw, ?_⟩
  intro h1 hm1 h2 hm2 heq
  by_contra hne
  exact List.Pairwise.forall (fun x y hxy => hxy.symm) hpw hm1 hm2 hne heq

/-- C5 witness: wrap two closures into a two-slot pool, destroy the
younger handle, wrap a third closure; the two live handles hold
distinct slots. -/
theorem thunk_live_handles_distinct_witness :
    exec [Event.wrap 5, Event.wrap 6, Event.drop 0, Event.wrap 7]
        (initState 2)
      = some ⟨[some 5, some 7], [⟨1, 7⟩, ⟨0, 5⟩]⟩ ∧
    (([⟨1, 7⟩, ⟨0, 5⟩] : List Handle).Pairwise
        (fun a b => a.idx ≠ b.idx) ∧
      ∀ h1 ∈ ([⟨1, 7⟩, ⟨0, 5⟩] : List Handle),
        ∀ h2 ∈ ([⟨1, 7⟩, ⟨0, 5⟩] : List Handle),
          h1.idx = h2.idx → h1 = h2) :=
  ⟨by decide,
    thunk_live_handles_distinct 2
      [Event.wrap 5, Event.wrap 6, Event.drop 0, Event.wrap 7]
      ⟨[some 5, some 7], [⟨1, 7⟩, ⟨0, 5⟩]⟩ (by decide)⟩

/-- C6: destroying a live handle unconditionally releases its slot:
afterwards that slot is empty, so an `acquire` that scans past only
occupied smaller slots returns the same index again; and every
remaining live handle's slot still stores its own closure's address, so
no live handle's dispatch is redirected through the reused index. -/
theorem thunk_destroy_releases_slot (N : Nat) (evs : List Event)
    (st : SysState) (k : Nat) (h : Handle) (st2 : SysState)
    (hexec : exec evs (initState N) = some st)
    (hk : st.live[k]? = some h)
    (hstep : stepEv st (Event.drop k) = some st2) :
    st2.data[h.idx]? = some none ∧
    (∀ h2 ∈ st2.live, st2.data[h2.idx]? = some (some h2.ptr)) ∧
    ∀ p : Nat, (∀ j, j < h.idx → ∃ q, st2.data[j]? = some (some q)) →
      acquire st2.data p = some (h.idx, st2.data.set h.idx (some p)) := by
  obtain ⟨hpw, hslots⟩ := Inv_exec evs (initState N) st (Inv_initState N)
    hexec
  simp only [stepEv] at hstep
  rw [hk] at hstep
  simp only [Option.some_inj] at hstep
  subst hstep
  have hmem : h ∈ st.live := List.getElem?_mem hk
  have hidx : st.data[h.idx]? = some (some h.ptr) := hslots h hmem
  have hlt : h.idx < st.data.length := (List.getElem?_eq_some.mp hidx).1
  have hempty : (release h.idx st.data)[h.idx]? = some none :=
    List.getElem?_set_self hlt
  refine ⟨hempty, ?_, ?_⟩
  · intro h2 hm2
    have hm3 : h2 ∈ st.live := (List.eraseIdx_sublist st.live k).subset hm2
    have hne3 : h2.idx ≠ h.idx := pairwise_ne_eraseIdx st.live k h hpw hk
      h2 hm2
    show (release h.idx st.data)[h2.idx]? = some (some h2.ptr)
    unfold release
    rw [List.getElem?_set_ne hne3.symm]
    exact hslots h2 hm3
  · intro p hocc
    exact acquireAux_eq p (release h.idx st.data) h.idx hempty hocc

/-- C6 witness: wrap two closures, then destroy the older handle (slot
0); slot 0 becomes empty and reusable by the next `acquire`, while the
handle on slot 1 still dispatches to its own closure. -/
theorem thunk_destroy_releases_slot_witness :
    (exec [Event.wrap 5, Event.wrap 6] (initState 2)
        = some ⟨[some 5, some 6], [⟨1, 6⟩, ⟨0, 5⟩]⟩ ∧
      ([⟨1, 6⟩, ⟨0, 5⟩] : List Handle)[1]? = some ⟨0, 5⟩ ∧
      stepEv ⟨[some 5, some 6], [⟨1, 6⟩, ⟨0, 5⟩]⟩ (Event.drop 1)
        = some ⟨[none, some 6], [⟨1, 6⟩]⟩) ∧
    (([none, some 6] : SlotTable)[0]? = some none ∧
      (∀ h2 ∈ ([⟨1, 6⟩] : List Handle),
        ([none, some 6] : SlotTable)[h2.idx]? = some (some h2.ptr)) ∧
      ∀ p : Nat,
        (∀ j, j < 0 → ∃ q, ([none, some 6] : SlotTable)[j]?
          = some (some q)) →
        acquire [none, some 6] p
          = some (0, ([none, some 6] : SlotTable).set 0 (some p))) :=
  ⟨⟨by decide, by decide, by decide⟩,
    thunk_destroy_releases_slot 2 [Event.wrap 5, Event.wrap 6]
      ⟨[some 5, some 6], [⟨1, 6⟩, ⟨0, 5⟩]⟩ 1 ⟨0, 5⟩
      ⟨[none, some 6], [⟨1, 6⟩]⟩ (by decide) (by decide) (by decide)⟩

end ThunkLambda
